import Mathlib

/-!
Verification of `skmultilearn/cluster/networkx.py`
(`NetworkXLabelGraphClusterer.fit_predict`).

The module builds a NetworkX graph from an edge map produced by a graph
builder, runs a community-detection method selected by a string, and converts
the resulting partition into a membership list of label-index communities.

The embedding below follows the Python source line by line:

* `NXGraph` models `networkx.Graph` restricted to the operations the source
  uses (`add_node`, `add_edge` with a `weight` attribute; undirected,
  re-adding an existing node is a no-op, re-adding an existing edge updates
  its weight).
* `PartitionResult` models the dynamic type of `partition_dict`:
  `community.best_partition` returns a dict node → community id, while
  `nx.asyn_lpa_communities` returns a *generator of node sets*.
* `PyError` models the Python exceptions the code can raise:
  `KeyError` (dict lookup misses), `TypeError` (`partition_dict[i]` on a
  generator: generators are not subscriptable), `AttributeError`
  (`partition_dict.values()` on a generator), `ValueError` (`max()` of an
  empty sequence).
* Evaluation order matches Python: in
  `_membership_to_list_of_communities([partition_dict[i] for i in range(L)],
  1 + max(partition_dict.values()))` the list comprehension is evaluated
  first (indices `0, 1, …` in order), then `max(partition_dict.values())`.

External collaborators (`community.best_partition`, `nx.asyn_lpa_communities`,
the graph builder) are parameters of the embedding: the source treats them as
opaque calls.
-/

/-- An edge weight as stored in the edge map produced by a graph builder:
either a numeric weight (weighted builder) or the neutral/unweighted marker
(unweighted builder).  The spec (§3) describes edge-map values as "a weight
(numeric) or a neutral/unweighted marker"; the upstream builder realizes the
neutral marker as the number 1. -/
inductive EdgeWeight where
  | num (w : Int) : EdgeWeight
  | neutral : EdgeWeight
deriving DecidableEq, Repr

/-- The Python exceptions reachable from `fit_predict`. -/
inductive PyError where
  | keyError (k : Nat) : PyError
  | typeError : PyError
  | attributeError : PyError
  | valueError : PyError
deriving DecidableEq, Repr

/-- The edge map returned by `graph_builder.transform(y)`: a Python dict in
insertion order, keyed by pairs of label indices. -/
abbrev EdgeMap := List ((Nat × Nat) × EdgeWeight)

/-- A `networkx.Graph` restricted to what the source uses: a node list (in
insertion order, no duplicates) and an undirected edge list carrying the
`weight` attribute. -/
structure NXGraph where
  nodes : List Nat
  edges : List (Nat × Nat × EdgeWeight)
deriving DecidableEq, Repr

/-- `nx.Graph()`. -/
def NXGraph.emptyGraph : NXGraph := ⟨[], []⟩

/-- `graph.add_node(n)`: a no-op when the node is already present. -/
def NXGraph.add_node (g : NXGraph) (n : Nat) : NXGraph :=
  if n ∈ g.nodes then g else { g with nodes := g.nodes ++ [n] }

/-- Whether a stored edge connects `a` and `b` (edges are undirected). -/
def sameEdge (a b : Nat) (e : Nat × Nat × EdgeWeight) : Bool :=
  (e.1 == a && e.2.1 == b) || (e.1 == b && e.2.1 == a)

/-- `graph.add_edge(a, b, weight=w)`: inserts missing endpoints, then either
updates the weight of an existing `{a, b}` edge or appends a new edge. -/
def NXGraph.add_edge (g : NXGraph) (a b : Nat) (w : EdgeWeight) : NXGraph :=
  let g' := (g.add_node a).add_node b
  if g'.edges.any (sameEdge a b) then
    { g' with edges := g'.edges.map (fun e => if sameEdge a b e then (e.1, e.2.1, w) else e) }
  else
    { g' with edges := g'.edges ++ [(a, b, w)] }

/-- Lines 152–157 of the source: add nodes `0 .. L-1`, then one edge per
edge-map entry, in dict iteration order. -/
def buildGraph (L : Nat) (em : EdgeMap) : NXGraph :=
  em.foldl (fun g e => g.add_edge e.1.1 e.1.2 e.2)
    ((List.range L).foldl (fun g n => g.add_node n) NXGraph.emptyGraph)

/-- The dynamic type of `partition_dict` after the dispatch:
`community.best_partition` returns a dict node → community id;
`nx.asyn_lpa_communities` returns a generator of node sets. -/
inductive PartitionResult where
  | assignment (d : List (Nat × Nat)) : PartitionResult
  | groups (gs : List (List Nat)) : PartitionResult
deriving DecidableEq, Repr

/-- Python dict lookup `d[k]` on a node → community-id dict (`none` models a
`KeyError`).  Keys in a Python dict are unique, so first match suffices. -/
def dictGet (d : List (Nat × Nat)) (k : Nat) : Option Nat :=
  (d.find? (fun p => p.1 == k)).map (fun p => p.2)

/-- The list comprehension `[partition_dict[i] for i in range(L)]` evaluated
from index `i` for `n` more steps, left to right, stopping at the first
`KeyError` like Python does. -/
def compFrom (d : List (Nat × Nat)) : Nat → Nat → Except PyError (List Nat)
  | _, 0 => .ok []
  | i, n + 1 =>
    match dictGet d i with
    | none => .error (.keyError i)
    | some c =>
      match compFrom d (i + 1) n with
      | .error e => .error e
      | .ok rest => .ok (c :: rest)

/-- `[partition_dict[i] for i in range(L)]`. -/
def listComp (d : List (Nat × Nat)) (L : Nat) : Except PyError (List Nat) :=
  compFrom d 0 L

/-- `max(partition_dict.values())`: `ValueError` on an empty dict, otherwise
the maximum of the values in iteration order. -/
def pyMaxValues (d : List (Nat × Nat)) : Except PyError Nat :=
  match d.map (fun p => p.2) with
  | [] => .error .valueError
  | v :: vs => .ok (vs.foldl Nat.max v)

/-- Modelled from the spec: one output entry of
`_membership_to_list_of_communities` — the ordered (ascending label index)
list of all label indices `i` with `membership[i] == c` (spec §4.3). -/
def communityEntry (membership : List Nat) (c : Nat) : List Nat :=
  (List.range membership.length).filter (fun i => membership.get? i == some c)

/-- Modelled from the spec: `_membership_to_list_of_communities` lives in
`skmultilearn/cluster/helpers.py`, which is not among the provided sources.
Spec §4.3: the output is a sequence of length `size`; output entry `c` is the
ordered (ascending label index) list of all label indices `i` with
`membership[i] == c`. -/
def _membership_to_list_of_communities (membership : List Nat) (size : Nat) :
    List (List Nat) :=
  (List.range size).map (fun c => communityEntry membership c)

/-- Lines 164–171 applied to a dict-shaped partition result: build the
membership vector, compute `1 + max(partition_dict.values())`, convert. -/
def convertAssignment (d : List (Nat × Nat)) (L : Nat) :
    Except PyError (List (List Nat)) :=
  match listComp d L with
  | .error e => .error e
  | .ok membership =>
    match pyMaxValues d with
    | .error e => .error e
    | .ok m => .ok (_membership_to_list_of_communities membership (1 + m))

/-- Lines 164–171 of the source on either partition-result shape.  On the
generator returned by `asyn_lpa_communities`, `partition_dict[0]` raises
`TypeError` (generators are not subscriptable); when `L = 0` the comprehension
is empty and `partition_dict.values()` raises `AttributeError` instead. -/
def convertResult : PartitionResult → Nat → Except PyError (List (List Nat))
  | .assignment d, L => convertAssignment d L
  | .groups _, L => if L = 0 then .error .attributeError else .error .typeError

/-- Lines 159–162 of the source: the method dispatch.  `best_partition` and
`asyn_lpa` stand for the external `community.best_partition` and
`nx.asyn_lpa_communities` calls; `asyn_lpa` receives the weight-attribute
name `"weight"` exactly as in the source.  Note the bare `else`: every method
string other than `"louvain"` reaches the label-propagation call. -/
def detect_communities (best_partition : NXGraph → List (Nat × Nat))
    (asyn_lpa : NXGraph → String → List (List Nat))
    (method : String) (g : NXGraph) : PartitionResult :=
  if method = "louvain" then .assignment (best_partition g)
  else .groups (asyn_lpa g "weight")

/-- The graph-builder collaborator: `transform` and the `is_weighted` flag
(spec §6). -/
structure GraphBuilder (Y : Type) where
  transform : Y → EdgeMap
  is_weighted : Bool

/-- The clusterer's constructor state: a graph builder and a method string. -/
structure NetworkXLabelGraphClusterer (Y : Type) where
  graph_builder : GraphBuilder Y
  method : String

/-- Everything `fit_predict` produces: the `weights_` attribute
(`dict(weight=list(edge_map.values()))` when weighted, `dict(weight=None)`
otherwise, modelled as `some values` / `none`), the `graph_` attribute, and
the returned membership list (or the Python exception raised). -/
structure FitResult where
  weights_ : Option (List EdgeWeight)
  graph_ : NXGraph
  ret : Except PyError (List (List Nat))
deriving Repr

/-- `NetworkXLabelGraphClusterer.fit_predict(self, X, y)` (lines 125–171).
`shape1 y` is `y.shape[1]`; `best_partition` and `asyn_lpa` are the external
community-detection calls; `x` is the unused `X` argument. -/
def fit_predict {X Y : Type} (shape1 : Y → Nat)
    (best_partition : NXGraph → List (Nat × Nat))
    (asyn_lpa : NXGraph → String → List (List Nat))
    (self : NetworkXLabelGraphClusterer Y) (x : X) (y : Y) : FitResult :=
  let edge_map := self.graph_builder.transform y
  let weights_ :=
    if self.graph_builder.is_weighted then some (edge_map.map (fun p => p.2)) else none
  let graph_ := buildGraph (shape1 y) edge_map
  let pr := detect_communities best_partition asyn_lpa self.method graph_
  { weights_ := weights_, graph_ := graph_, ret := convertResult pr (shape1 y) }

/-! ### Concrete instances used in scenario theorems -/

/-- The spec §8 scenario edge map `{(0,1): 2.0, (1,2): 1.0}`. -/
def scenarioEdgeMap : EdgeMap := [((0, 1), .num 2), ((1, 2), .num 1)]

/-- A clusterer over a trivial label-matrix type carrying only its column
count, with a builder returning a fixed edge map. -/
def mkClusterer (em : EdgeMap) (weighted : Bool) (method : String) :
    NetworkXLabelGraphClusterer Nat :=
  { graph_builder := { transform := fun _ => em, is_weighted := weighted }
    method := method }

/-! ### Derived notions used to state and prove properties -/

/-- The membership vector `[d[i] for i in range(L)]` when every lookup
succeeds (missing keys default to `0`; the lemmas below only use this under a
coverage hypothesis). -/
def membershipVec (d : List (Nat × Nat)) (L : Nat) : List Nat :=
  (List.range L).map (fun i => (dictGet d i).getD 0)

/-- `max(d.values())` for a nonempty dict, as a total function. -/
def maxVals (d : List (Nat × Nat)) : Nat :=
  (d.map (fun p => p.2)).foldl Nat.max 0

/-- The membership list `fit_predict` returns for a dict-shaped partition
result that covers `[0, L)`. -/
def communitiesOf (d : List (Nat × Nat)) (L : Nat) : List (List Nat) :=
  _membership_to_list_of_communities (membershipVec d L) (1 + maxVals d)

/-- Two edge-map keys describe the same unordered pair. -/
def sameKey (k₁ k₂ : Nat × Nat) : Prop :=
  (k₁.1 = k₂.1 ∧ k₁.2 = k₂.2) ∨ (k₁.1 = k₂.2 ∧ k₁.2 = k₂.1)

instance (k₁ k₂ : Nat × Nat) : Decidable (sameKey k₁ k₂) := by
  unfold sameKey; infer_instance

/-- A valid edge map over `L` labels (spec §4.1 preconditions): endpoints in
range, no self-loops, and keys pairwise distinct as unordered pairs. -/
def validEdgeMap (L : Nat) (em : EdgeMap) : Prop :=
  (∀ e ∈ em, e.1.1 < L ∧ e.1.2 < L ∧ e.1.1 ≠ e.1.2) ∧
    em.Pairwise (fun e₁ e₂ => ¬ sameKey e₁.1 e₂.1)

instance (L : Nat) (em : EdgeMap) : Decidable (validEdgeMap L em) := by
  unfold validEdgeMap; infer_instance

/-! ### Claim theorems (first batch) -/

/-- **C1** (code evaluation at the failing input): the dispatch has no error
branch at all — for every method string other than `"louvain"`, including
`"unknown"`, it silently runs the label-propagation call, exactly as it does
for `"label_propagation"`.  No `UnsupportedMethodError` exists in the code. -/
theorem C1_dispatch_silently_falls_through
    (best_partition : NXGraph → List (Nat × Nat))
    (asyn_lpa : NXGraph → String → List (List Nat)) (g : NXGraph) :
    detect_communities best_partition asyn_lpa "unknown" g
      = PartitionResult.groups (asyn_lpa g "weight") ∧
    detect_communities best_partition asyn_lpa "unknown" g
      = detect_communities best_partition asyn_lpa "label_propagation" g := by
  constructor <;> rfl

/-- **C2** (code evaluation at the failing input): with `L = 4`, the scenario
edge map, `method = "label_propagation"` and the label-propagation call
returning the groups `[{0,1,2},{3}]`, `fit_predict` does not normalize the
groups into a node → id mapping: it subscripts the generator
(`partition_dict[0]`), raising `TypeError` instead of returning
`[[0,1,2],[3]]`. -/
theorem C2_label_propagation_path_raises_TypeError :
    (fit_predict (fun L => L) (fun _ => []) (fun _ _ => [[0, 1, 2], [3]])
        (mkClusterer scenarioEdgeMap true "label_propagation") (0 : Nat) 4).ret
      = Except.error PyError.typeError := by
  rfl

/-- **C10**: `fit_predict` never reads its `X` argument: for fixed `y`,
builder, method and external calls, any two values of `X` (of any two types)
give the same return value and the same `graph_` and `weights_` attributes. -/
theorem C10_fit_predict_ignores_X {X₁ X₂ Y : Type} (shape1 : Y → Nat)
    (best_partition : NXGraph → List (Nat × Nat))
    (asyn_lpa : NXGraph → String → List (List Nat))
    (self : NetworkXLabelGraphClusterer Y) (x₁ : X₁) (x₂ : X₂) (y : Y) :
    fit_predict shape1 best_partition asyn_lpa self x₁ y
      = fit_predict shape1 best_partition asyn_lpa self x₂ y := by
  rfl

/-! ### Helper lemmas: the list comprehension and `max(values())` -/

theorem dictGet_nil (k : Nat) : dictGet [] k = none := rfl

theorem compFrom_ok (d : List (Nat × Nat)) (n : Nat) :
    ∀ s : Nat, (∀ i, s ≤ i → i < s + n → (dictGet d i).isSome) →
      compFrom d s n = .ok ((List.range' s n).map (fun i => (dictGet d i).getD 0)) := by
  induction n with
  | zero => intro s _; rfl
  | succ n ih =>
    intro s h
    obtain ⟨c, hc⟩ := Option.isSome_iff_exists.mp (h s le_rfl (by omega))
    have ht := ih (s + 1) (fun i h1 h2 => h i (by omega) (by omega))
    unfold compFrom
    rw [hc, ht, List.range'_succ]
    simp [hc]

theorem listComp_ok (d : List (Nat × Nat)) (L : Nat)
    (h : ∀ i, i < L → (dictGet d i).isSome) :
    listComp d L = .ok (membershipVec d L) := by
  unfold listComp membershipVec
  rw [List.range_eq_range']
  exact compFrom_ok d L 0 (fun i _ h2 => h i (by omega))

theorem compFrom_error (d : List (Nat × Nat)) (n : Nat) :
    ∀ s : Nat, (∃ k, k < n ∧ dictGet d (s + k) = none) →
      ∃ j, s ≤ j ∧ j < s + n ∧ dictGet d j = none ∧
        compFrom d s n = .error (.keyError j) := by
  induction n with
  | zero => intro s ⟨k, hk, _⟩; omega
  | succ n ih =>
    intro s ⟨k, hk, hfail⟩
    cases hd : dictGet d s with
    | none =>
      refine ⟨s, le_rfl, by omega, hd, ?_⟩
      unfold compFrom
      rw [hd]
    | some c =>
      have hk0 : k ≠ 0 := by
        intro h0
        rw [h0] at hfail
        simp at hfail
        rw [hd] at hfail
        exact Option.noConfusion hfail
      obtain ⟨j, hj1, hj2, hj3, hj4⟩ :=
        ih (s + 1) ⟨k - 1, by omega, by rw [show s + 1 + (k - 1) = s + k by omega]; exact hfail⟩
      refine ⟨j, by omega, by omega, hj3, ?_⟩
      unfold compFrom
      rw [hd, hj4]

theorem pyMaxValues_ok (d : List (Nat × Nat)) (hd : d ≠ []) :
    pyMaxValues d = .ok (maxVals d) := by
  cases d with
  | nil => exact absurd rfl hd
  | cons p t =>
    unfold pyMaxValues maxVals
    simp [Nat.zero_max]

theorem le_foldl_max (l : List Nat) : ∀ a : Nat, a ≤ l.foldl Nat.max a := by
  induction l with
  | nil => intro a; simp
  | cons b t ih =>
    intro a
    exact le_trans (Nat.le_max_left a b) (ih (Nat.max a b))

theorem mem_le_foldl_max (l : List Nat) (b : Nat) (hb : b ∈ l) :
    ∀ a : Nat, b ≤ l.foldl Nat.max a := by
  induction l with
  | nil => cases hb
  | cons c t ih =>
    intro a
    rw [List.foldl_cons]
    rcases List.mem_cons.mp hb with h | h
    · subst h
      exact le_trans (Nat.le_max_right a b) (le_foldl_max t (Nat.max a b))
    · exact ih h (Nat.max a c)

theorem dictGet_mem_values (d : List (Nat × Nat)) (i c : Nat)
    (h : dictGet d i = some c) : c ∈ d.map (fun p => p.2) := by
  unfold dictGet at h
  cases hf : d.find? (fun p => p.1 == i) with
  | none => rw [hf] at h; exact Option.noConfusion h
  | some p =>
    rw [hf] at h
    simp only [Option.map_some'] at h
    obtain rfl : p.2 = c := Option.some.injEq _ _ ▸ h
    exact List.mem_map_of_mem _ (List.mem_of_find?_eq_some hf)

theorem dictGet_le_maxVals (d : List (Nat × Nat)) (i c : Nat)
    (h : dictGet d i = some c) : c ≤ maxVals d :=
  mem_le_foldl_max _ c (dictGet_mem_values d i c h) 0

theorem dictGet_cover_ne_nil (d : List (Nat × Nat)) (L : Nat) (h0 : 0 < L)
    (hc : ∀ i, i < L → (dictGet d i).isSome) : d ≠ [] := by
  intro hnil
  have := hc 0 h0
  rw [hnil, dictGet_nil] at this
  exact Bool.noConfusion this

theorem convertAssignment_ok (d : List (Nat × Nat)) (L : Nat) (h0 : 0 < L)
    (hc : ∀ i, i < L → (dictGet d i).isSome) :
    convertAssignment d L = .ok (communitiesOf d L) := by
  unfold convertAssignment communitiesOf
  rw [listComp_ok d L hc, pyMaxValues_ok d (dictGet_cover_ne_nil d L h0 hc)]

/-! ### Helper lemmas: structure of the membership list -/

theorem membershipVec_length (d : List (Nat × Nat)) (L : Nat) :
    (membershipVec d L).length = L := by
  simp [membershipVec]

theorem membershipVec_get? (d : List (Nat × Nat)) (L i : Nat) (h : i < L) :
    (membershipVec d L).get? i = some ((dictGet d i).getD 0) := by
  unfold membershipVec
  rw [List.get?_map, List.get?_range h, Option.map_some']

theorem mem_communityEntry (membership : List Nat) (c i : Nat) :
    i ∈ communityEntry membership c ↔
      i < membership.length ∧ membership.get? i = some c := by
  unfold communityEntry
  rw [List.mem_filter, List.mem_range]
  simp

theorem mem_communityEntry_vec (d : List (Nat × Nat)) (L : Nat)
    (hc : ∀ i, i < L → (dictGet d i).isSome) (c i : Nat) :
    i ∈ communityEntry (membershipVec d L) c ↔ i < L ∧ dictGet d i = some c := by
  rw [mem_communityEntry, membershipVec_length]
  constructor
  · rintro ⟨h1, h2⟩
    rw [membershipVec_get? d L i h1] at h2
    obtain ⟨v, hv⟩ := Option.isSome_iff_exists.mp (hc i h1)
    rw [hv] at h2
    simp at h2
    exact ⟨h1, by rw [hv, h2]⟩
  · rintro ⟨h1, h2⟩
    refine ⟨h1, ?_⟩
    rw [membershipVec_get? d L i h1, h2]
    rfl

theorem communityEntry_sorted (membership : List Nat) (c : Nat) :
    List.Sorted (· < ·) (communityEntry membership c) :=
  List.Pairwise.filter _ (List.pairwise_lt_range _)

theorem mem_membership_list (membership : List Nat) (size : Nat)
    (comm : List Nat) :
    comm ∈ _membership_to_list_of_communities membership size ↔
      ∃ c, c < size ∧ comm = communityEntry membership c := by
  unfold _membership_to_list_of_communities
  rw [List.mem_map]
  constructor
  · rintro ⟨c, hc, rfl⟩
    exact ⟨c, List.mem_range.mp hc, rfl⟩
  · rintro ⟨c, hc, rfl⟩
    exact ⟨c, List.mem_range.mpr hc, rfl⟩

theorem membership_list_length (membership : List Nat) (size : Nat) :
    (_membership_to_list_of_communities membership size).length = size := by
  simp [_membership_to_list_of_communities]

theorem communitiesOf_countP (d : List (Nat × Nat)) (L : Nat)
    (hc : ∀ i, i < L → (dictGet d i).isSome) (i : Nat) (hi : i < L) :
    (communitiesOf d L).countP (fun comm => decide (i ∈ comm)) = 1 := by
  obtain ⟨ci, hci⟩ := Option.isSome_iff_exists.mp (hc i hi)
  have hlt : ci < 1 + maxVals d := by
    have := dictGet_le_maxVals d i ci hci
    omega
  unfold communitiesOf _membership_to_list_of_communities
  rw [List.countP_map]
  have hcong : ∀ c ∈ List.range (1 + maxVals d),
      ((fun comm => decide (i ∈ comm)) ∘ (fun c => communityEntry (membershipVec d L) c)) c
        = true ↔ (c == ci) = true := by
    intro c _
    simp only [Function.comp_apply, decide_eq_true_eq, beq_iff_eq]
    rw [mem_communityEntry_vec d L hc c i]
    constructor
    · rintro ⟨_, h2⟩
      rw [hci] at h2
      exact (Option.some.injEq _ _ ▸ h2.symm)
    · rintro rfl
      exact ⟨hi, hci⟩
  rw [List.countP_congr hcong, ← List.count_eq_countP]
  exact List.count_eq_one_of_mem (List.nodup_range _) (List.mem_range.mpr hlt)

theorem communitiesOf_sameCommunity (d : List (Nat × Nat)) (L : Nat)
    (hc : ∀ i, i < L → (dictGet d i).isSome) (i j : Nat) (hi : i < L) (hj : j < L) :
    (∃ comm ∈ communitiesOf d L, i ∈ comm ∧ j ∈ comm) ↔ dictGet d i = dictGet d j := by
  obtain ⟨ci, hci⟩ := Option.isSome_iff_exists.mp (hc i hi)
  constructor
  · rintro ⟨comm, hcomm, hic, hjc⟩
    obtain ⟨c, _, rfl⟩ := (mem_membership_list _ _ _).mp hcomm
    have h1 := ((mem_communityEntry_vec d L hc c i).mp hic).2
    have h2 := ((mem_communityEntry_vec d L hc c j).mp hjc).2
    rw [h1, h2]
  · intro heq
    have hlt : ci < 1 + maxVals d := by
      have := dictGet_le_maxVals d i ci hci
      omega
    refine ⟨communityEntry (membershipVec d L) ci,
      (mem_membership_list _ _ _).mpr ⟨ci, hlt, rfl⟩, ?_, ?_⟩
    · exact (mem_communityEntry_vec d L hc ci i).mpr ⟨hi, hci⟩
    · exact (mem_communityEntry_vec d L hc ci j).mpr ⟨hj, by rw [← heq, hci]⟩

/-! ### Claim theorems (conversion) -/

/-- **C3**: for every partition assignment covering `[0, L)` the conversion
succeeds and the membership list has length `1 + max(assignment.values())`,
every label index `0 .. L-1` lies in exactly one community entry, and every
entry is sorted in ascending label-index order. -/
theorem C3_membership_list_shape (d : List (Nat × Nat)) (L : Nat) (h0 : 0 < L)
    (hc : ∀ i, i < L → (dictGet d i).isSome) :
    ∃ out m, pyMaxValues d = Except.ok m ∧
      convertAssignment d L = Except.ok out ∧
      out.length = 1 + m ∧
      (∀ i, i < L → out.countP (fun comm => decide (i ∈ comm)) = 1) ∧
      (∀ comm ∈ out, List.Sorted (· < ·) comm) := by
  refine ⟨communitiesOf d L, maxVals d,
    pyMaxValues_ok d (dictGet_cover_ne_nil d L h0 hc),
    convertAssignment_ok d L h0 hc,
    membership_list_length _ _,
    fun i hi => communitiesOf_countP d L hc i hi,
    fun comm hcomm => ?_⟩
  obtain ⟨c, _, rfl⟩ := (mem_membership_list _ _ _).mp hcomm
  exact communityEntry_sorted _ _

/-- **C3 witness**: the spec §8 scenario assignment `{0:0, 1:0, 2:0, 3:1}`
with `L = 4`. -/
theorem C3_membership_list_shape_witness :
    ∃ out m, pyMaxValues [(0, 0), (1, 0), (2, 0), (3, 1)] = Except.ok m ∧
      convertAssignment [(0, 0), (1, 0), (2, 0), (3, 1)] 4 = Except.ok out ∧
      out.length = 1 + m ∧
      (∀ i, i < 4 → out.countP (fun comm => decide (i ∈ comm)) = 1) ∧
      (∀ comm ∈ out, List.Sorted (· < ·) comm) :=
  C3_membership_list_shape [(0, 0), (1, 0), (2, 0), (3, 1)] 4 (by decide) (by decide)

/-- **C6**: if any label index in `[0, L)` is missing from the assignment,
the conversion fails with a `KeyError` (the source realization of the spec's
`MissingAssignmentError`) at some missing index. -/
theorem C6_missing_assignment_fails (d : List (Nat × Nat)) (L i : Nat)
    (h1 : i < L) (h2 : dictGet d i = none) :
    ∃ j, j < L ∧ dictGet d j = none ∧
      convertAssignment d L = Except.error (PyError.keyError j) := by
  obtain ⟨j, _, hj2, hj3, hj4⟩ :=
    compFrom_error d L 0 ⟨i, h1, by simpa using h2⟩
  have hlc : listComp d L = .error (.keyError j) := hj4
  refine ⟨j, by omega, hj3, ?_⟩
  unfold convertAssignment
  rw [hlc]

/-- **C6 witness**: assignment `{0: 5}` with `L = 2` is missing label `1`. -/
theorem C6_missing_assignment_fails_witness :
    ∃ j, j < 2 ∧ dictGet [(0, 5)] j = none ∧
      convertAssignment [(0, 5)] 2 = Except.error (PyError.keyError j) :=
  C6_missing_assignment_fails [(0, 5)] 2 1 (by decide) (by decide)

/-- **C8**: round-trip — for every complete assignment over `[0, L)` the
conversion succeeds and two labels share a community entry of the output
exactly when the original assignment maps them to the same community id, so
re-deriving an assignment from the membership list reproduces the original
label groupings up to community-id relabeling. -/
theorem C8_round_trip (d : List (Nat × Nat)) (L : Nat) (h0 : 0 < L)
    (hc : ∀ i, i < L → (dictGet d i).isSome) :
    ∃ out, convertAssignment d L = Except.ok out ∧
      ∀ i j, i < L → j < L →
        ((∃ comm ∈ out, i ∈ comm ∧ j ∈ comm) ↔ dictGet d i = dictGet d j) :=
  ⟨communitiesOf d L, convertAssignment_ok d L h0 hc,
    fun i j hi hj => communitiesOf_sameCommunity d L hc i j hi hj⟩

/-- **C8 witness**: the spec §8 scenario assignment. -/
theorem C8_round_trip_witness :
    ∃ out, convertAssignment [(0, 0), (1, 0), (2, 0), (3, 1)] 4 = Except.ok out ∧
      ∀ i j, i < 4 → j < 4 →
        ((∃ comm ∈ out, i ∈ comm ∧ j ∈ comm) ↔
          dictGet [(0, 0), (1, 0), (2, 0), (3, 1)] i
            = dictGet [(0, 0), (1, 0), (2, 0), (3, 1)] j) :=
  C8_round_trip [(0, 0), (1, 0), (2, 0), (3, 1)] 4 (by decide) (by decide)

/-- **C5 counterexample**: with `L = 0` (zero-column label matrix, empty edge
map) and the louvain call returning the only assignment that covers `[0, 0)`
— the empty dict — `fit_predict` raises `ValueError` (from `max()` over the
empty `partition_dict.values()`) instead of returning the empty membership
list the claim promises. -/
theorem C5_counterexample_L0_raises :
    (fit_predict (fun L => L) (fun _ => []) (fun _ _ => [])
        (mkClusterer [] true "louvain") (0 : Nat) 0).ret
      = Except.error PyError.valueError ∧
    (fit_predict (fun L => L) (fun _ => []) (fun _ _ => [])
        (mkClusterer [] true "louvain") (0 : Nat) 0).ret
      ≠ Except.ok [] := by
  refine ⟨rfl, ?_⟩
  intro h
  rw [show (fit_predict (fun L => L) (fun _ => []) (fun _ _ => [])
      (mkClusterer [] true "louvain") (0 : Nat) 0).ret
      = Except.error PyError.valueError from rfl] at h
  exact Except.noConfusion h

/-- **C5 amended**: for `L = 0` `fit_predict` builds an empty graph
(`graph_` has no nodes and no edges) but the membership conversion raises
`ValueError` (`max()` of an empty sequence) instead of returning an empty
membership list; a single isolated label with no edges still yields a
membership list in which exactly one community entry contains that label. -/
theorem C5_amended_boundary_behavior :
    ((fit_predict (fun L => L) (fun _ => []) (fun _ _ => [])
        (mkClusterer [] true "louvain") (0 : Nat) 0).graph_ = NXGraph.emptyGraph ∧
      (fit_predict (fun L => L) (fun _ => []) (fun _ _ => [])
        (mkClusterer [] true "louvain") (0 : Nat) 0).ret
        = Except.error PyError.valueError) ∧
    ∀ c : Nat, ∃ out,
      (fit_predict (fun L => L) (fun _ => [(0, c)]) (fun _ _ => [])
          (mkClusterer [] false "louvain") (0 : Nat) 1).ret = Except.ok out ∧
      out.countP (fun comm => decide (0 ∈ comm)) = 1 := by
  refine ⟨⟨rfl, rfl⟩, fun c => ?_⟩
  have hc : ∀ i, i < 1 → (dictGet [(0, c)] i).isSome := by
    intro i hi
    have h : i = 0 := Nat.lt_one_iff.mp hi
    subst h
    rfl
  have hret : (fit_predict (fun L => L) (fun _ => [(0, c)]) (fun _ _ => [])
      (mkClusterer [] false "louvain") (0 : Nat) 1).ret
      = convertAssignment [(0, c)] 1 := rfl
  refine ⟨communitiesOf [(0, c)] 1, ?_, ?_⟩
  · rw [hret]
    exact convertAssignment_ok [(0, c)] 1 (by omega) hc
  · exact communitiesOf_countP [(0, c)] 1 hc 0 (by omega)

/-! ### Helper lemmas: iteration-order independence -/

theorem dictGet_perm (d₁ d₂ : List (Nat × Nat)) (hp : d₁.Perm d₂)
    (hk : (d₁.map (fun p => p.1)).Nodup) (k : Nat) :
    dictGet d₁ k = dictGet d₂ k := by
  induction hp with
  | nil => rfl
  | cons x hperm ih =>
    by_cases hx : ((fun q : Nat × Nat => q.1 == k) x) = true
    · unfold dictGet
      rw [List.find?_cons_of_pos (p := fun q : Nat × Nat => q.1 == k) _ hx,
        List.find?_cons_of_pos (p := fun q : Nat × Nat => q.1 == k) _ hx]
    · unfold dictGet
      rw [List.find?_cons_of_neg (p := fun q : Nat × Nat => q.1 == k) _ hx,
        List.find?_cons_of_neg (p := fun q : Nat × Nat => q.1 == k) _ hx]
      rw [List.map_cons] at hk
      exact ih (List.nodup_cons.mp hk).2
  | swap x y l =>
    have hxy : y.1 ≠ x.1 := by
      simp only [List.map_cons, List.nodup_cons, List.mem_cons] at hk
      exact fun h => hk.1 (Or.inl h)
    by_cases hy : ((fun q : Nat × Nat => q.1 == k) y) = true
    · have hyk : y.1 = k := beq_iff_eq.mp hy
      have hx : ¬ ((fun q : Nat × Nat => q.1 == k) x) = true := by
        simp only [beq_iff_eq]
        intro h
        exact hxy (by rw [hyk, h])
      unfold dictGet
      rw [List.find?_cons_of_pos (p := fun q : Nat × Nat => q.1 == k) _ hy,
        List.find?_cons_of_neg (p := fun q : Nat × Nat => q.1 == k) _ hx,
        List.find?_cons_of_pos (p := fun q : Nat × Nat => q.1 == k) _ hy]
    · by_cases hx : ((fun q : Nat × Nat => q.1 == k) x) = true
      · unfold dictGet
        rw [List.find?_cons_of_neg (p := fun q : Nat × Nat => q.1 == k) _ hy,
          List.find?_cons_of_pos (p := fun q : Nat × Nat => q.1 == k) _ hx,
          List.find?_cons_of_pos (p := fun q : Nat × Nat => q.1 == k) _ hx]
      · unfold dictGet
        rw [List.find?_cons_of_neg (p := fun q : Nat × Nat => q.1 == k) _ hy,
          List.find?_cons_of_neg (p := fun q : Nat × Nat => q.1 == k) _ hx,
          List.find?_cons_of_neg (p := fun q : Nat × Nat => q.1 == k) _ hx,
          List.find?_cons_of_neg (p := fun q : Nat × Nat => q.1 == k) _ hy]
  | trans h₁ h₂ ih₁ ih₂ =>
    exact (ih₁ hk).trans (ih₂ ((h₁.map (fun p => p.1)).nodup hk))

theorem compFrom_congr (d₁ d₂ : List (Nat × Nat))
    (h : ∀ k, dictGet d₁ k = dictGet d₂ k) (n : Nat) :
    ∀ s, compFrom d₁ s n = compFrom d₂ s n := by
  induction n with
  | zero => intro _; rfl
  | succ n ih =>
    intro s
    unfold compFrom
    rw [h s, ih (s + 1)]

theorem pyMaxValues_perm (d₁ d₂ : List (Nat × Nat)) (hp : d₁.Perm d₂) :
    pyMaxValues d₁ = pyMaxValues d₂ := by
  by_cases h₁ : d₁ = []
  · subst h₁
    rw [hp.symm.eq_nil]
  · have h₂ : d₂ ≠ [] := by
      intro h
      subst h
      exact h₁ hp.eq_nil
    rw [pyMaxValues_ok d₁ h₁, pyMaxValues_ok d₂ h₂]
    have hm : (d₁.map (fun p => p.2)).Perm (d₂.map (fun p => p.2)) :=
      hp.map (fun p => p.2)
    unfold maxVals
    rw [hm.foldl_eq 0]

theorem convertAssignment_ok_entries_sorted (d : List (Nat × Nat)) (L : Nat)
    (out : List (List Nat)) (h : convertAssignment d L = Except.ok out) :
    ∀ comm ∈ out, List.Sorted (· < ·) comm := by
  unfold convertAssignment at h
  cases hlc : listComp d L with
  | error e => rw [hlc] at h; exact Except.noConfusion h
  | ok membership =>
    rw [hlc] at h
    cases hmv : pyMaxValues d with
    | error e => rw [hmv] at h; exact Except.noConfusion h
    | ok m =>
      rw [hmv] at h
      have hout : _membership_to_list_of_communities membership (1 + m) = out := by
        injection h
      intro comm hcomm
      rw [← hout] at hcomm
      obtain ⟨c, _, rfl⟩ := (mem_membership_list _ _ _).mp hcomm
      exact communityEntry_sorted _ _

/-- **C9**: the membership-list conversion is deterministic and independent
of the dict iteration order: reordering the assignment's entries (any
permutation; dict keys are unique) gives exactly the same output, and every
community list in a successful output is strictly ascending in label index. -/
theorem C9_conversion_order_independent (d₁ d₂ : List (Nat × Nat)) (L : Nat)
    (hp : d₁.Perm d₂) (hk : (d₁.map (fun p => p.1)).Nodup) :
    convertAssignment d₁ L = convertAssignment d₂ L ∧
      ∀ out, convertAssignment d₁ L = Except.ok out →
        ∀ comm ∈ out, List.Sorted (· < ·) comm := by
  constructor
  · have hlc : listComp d₁ L = listComp d₂ L :=
      compFrom_congr d₁ d₂ (dictGet_perm d₁ d₂ hp hk) L 0
    unfold convertAssignment
    rw [hlc, pyMaxValues_perm d₁ d₂ hp]
  · exact fun out h => convertAssignment_ok_entries_sorted d₁ L out h

/-- **C9 witness**: the two iteration orders of the dict `{0: 1, 1: 0}`. -/
theorem C9_conversion_order_independent_witness :
    convertAssignment [(0, 1), (1, 0)] 2 = convertAssignment [(1, 0), (0, 1)] 2 ∧
      ∀ out, convertAssignment [(0, 1), (1, 0)] 2 = Except.ok out →
        ∀ comm ∈ out, List.Sorted (· < ·) comm :=
  C9_conversion_order_independent [(0, 1), (1, 0)] [(1, 0), (0, 1)] 2
    (by decide) (by decide)

/-! ### Helper lemmas: graph assembly -/

theorem foldl_add_node (l : List Nat) :
    ∀ g : NXGraph, l.Nodup → (∀ n ∈ l, n ∉ g.nodes) →
      l.foldl (fun g n => g.add_node n) g = ⟨g.nodes ++ l, g.edges⟩ := by
  induction l with
  | nil => intro g _ _; simp
  | cons a t ih =>
    intro g hnd hmem
    rw [List.foldl_cons]
    have ha : a ∉ g.nodes := hmem a (List.mem_cons_self a t)
    have hstep : g.add_node a = ⟨g.nodes ++ [a], g.edges⟩ := by
      unfold NXGraph.add_node
      rw [if_neg ha]
    rw [hstep, ih ⟨g.nodes ++ [a], g.edges⟩ (List.nodup_cons.mp hnd).2 ?miss]
    · simp
    case miss =>
      intro n hn
      rw [List.mem_append, List.mem_singleton]
      rintro (h | h)
      · exact hmem n (List.mem_cons_of_mem a hn) h
      · exact (List.nodup_cons.mp hnd).1 (h ▸ hn)

theorem initGraph_eq (L : Nat) :
    (List.range L).foldl (fun g n => g.add_node n) NXGraph.emptyGraph
      = ⟨List.range L, []⟩ := by
  rw [foldl_add_node (List.range L) NXGraph.emptyGraph (List.nodup_range L)
    (fun n _ h => List.not_mem_nil n h)]
  rfl

theorem add_edge_append (g : NXGraph) (a b : Nat) (w : EdgeWeight)
    (ha : a ∈ g.nodes) (hb : b ∈ g.nodes)
    (hmiss : ∀ x ∈ g.edges, sameEdge a b x = false) :
    g.add_edge a b w = ⟨g.nodes, g.edges ++ [(a, b, w)]⟩ := by
  have h1 : (g.add_node a).add_node b = g := by
    unfold NXGraph.add_node
    rw [if_pos ha, if_pos hb]
  have hany : g.edges.any (sameEdge a b) = false :=
    List.any_eq_false.mpr (fun x hx => by simp [hmiss x hx])
  unfold NXGraph.add_edge
  simp only [h1, hany]
  rfl

theorem sameEdge_true_iff (a b c d : Nat) (w : EdgeWeight) :
    sameEdge a b (c, d, w) = true ↔ sameKey (c, d) (a, b) := by
  simp [sameEdge, sameKey]

theorem foldl_add_edge (em : EdgeMap) :
    ∀ g : NXGraph,
      (∀ e ∈ em, e.1.1 ∈ g.nodes ∧ e.1.2 ∈ g.nodes) →
      (∀ e ∈ em, ∀ x ∈ g.edges, sameEdge e.1.1 e.1.2 x = false) →
      em.Pairwise (fun e₁ e₂ => ¬ sameKey e₁.1 e₂.1) →
      em.foldl (fun g e => g.add_edge e.1.1 e.1.2 e.2) g
        = ⟨g.nodes, g.edges ++ em.map (fun e => (e.1.1, e.1.2, e.2))⟩ := by
  induction em with
  | nil => intro g _ _ _; simp
  | cons e t ih =>
    intro g hn hm hp
    have hmem := List.mem_cons_self e t
    rw [List.foldl_cons,
      add_edge_append g e.1.1 e.1.2 e.2 (hn e hmem).1 (hn e hmem).2 (hm e hmem)]
    rw [ih ⟨g.nodes, g.edges ++ [(e.1.1, e.1.2, e.2)]⟩ ?nodes ?miss
      (List.pairwise_cons.mp hp).2]
    · simp
    case nodes =>
      exact fun e' he' => hn e' (List.mem_cons_of_mem e he')
    case miss =>
      intro e' he' x hx
      rcases List.mem_append.mp hx with h | h
      · exact hm e' (List.mem_cons_of_mem e he') x h
      · rw [List.mem_singleton.mp h]
        have hkey : ¬ sameKey e.1 e'.1 := (List.pairwise_cons.mp hp).1 e' he'
        rw [Bool.eq_false_iff]
        intro htrue
        exact hkey ((sameEdge_true_iff e'.1.1 e'.1.2 e.1.1 e.1.2 e.2).mp htrue)
  
theorem buildGraph_eq (L : Nat) (em : EdgeMap) (hv : validEdgeMap L em) :
    buildGraph L em = ⟨List.range L, em.map (fun e => (e.1.1, e.1.2, e.2))⟩ := by
  unfold buildGraph
  rw [initGraph_eq L]
  rw [foldl_add_edge em ⟨List.range L, []⟩ ?nodes ?miss hv.2]
  · rfl
  case nodes =>
    exact fun e he =>
      ⟨List.mem_range.mpr (hv.1 e he).1, List.mem_range.mpr (hv.1 e he).2.1⟩
  case miss =>
    exact fun e _ x hx => absurd hx (List.not_mem_nil x)

/-! ### Claim theorems (graph assembly) -/

/-- **C4**: for every `L ≥ 0` and valid edge map, the assembled graph has
exactly `L` nodes (isolated labels included) and exactly `len(edge_map)`
edges. -/
theorem C4_node_and_edge_counts (L : Nat) (em : EdgeMap)
    (hv : validEdgeMap L em) :
    (buildGraph L em).nodes.length = L ∧
      (buildGraph L em).edges.length = em.length := by
  rw [buildGraph_eq L em hv]
  simp

/-- **C4 witness**: the spec §8 scenario, `L = 4` with two edges. -/
theorem C4_node_and_edge_counts_witness :
    (buildGraph 4 scenarioEdgeMap).nodes.length = 4 ∧
      (buildGraph 4 scenarioEdgeMap).edges.length = scenarioEdgeMap.length :=
  C4_node_and_edge_counts 4 scenarioEdgeMap (by decide)

/-- **C7**: when the builder is unweighted each edge of the assembled graph
carries the uniform neutral marker (the builder's neutral weight, not a
per-edge value of its own), and in every case each edge keeps exactly the
weight its edge-map entry carries — in particular a weighted builder's
numeric weights survive unchanged. -/
theorem C7_edge_weights (L : Nat) (em : EdgeMap) (hv : validEdgeMap L em) :
    ((∀ e ∈ em, e.2 = EdgeWeight.neutral) →
      ∀ x ∈ (buildGraph L em).edges, x.2.2 = EdgeWeight.neutral) ∧
    (∀ e ∈ em, (e.1.1, e.1.2, e.2) ∈ (buildGraph L em).edges) := by
  rw [buildGraph_eq L em hv]
  constructor
  · intro hneutral x hx
    obtain ⟨e, he, rfl⟩ := List.mem_map.mp hx
    exact hneutral e he
  · intro e he
    exact List.mem_map_of_mem _ he

/-- **C7 witness**: an unweighted two-edge map over three labels. -/
theorem C7_edge_weights_witness :
    ((∀ e ∈ ([((0, 1), .neutral), ((1, 2), .neutral)] : EdgeMap),
        e.2 = EdgeWeight.neutral) →
      ∀ x ∈ (buildGraph 3 [((0, 1), .neutral), ((1, 2), .neutral)]).edges,
        x.2.2 = EdgeWeight.neutral) ∧
    (∀ e ∈ ([((0, 1), .neutral), ((1, 2), .neutral)] : EdgeMap),
      (e.1.1, e.1.2, e.2) ∈
        (buildGraph 3 [((0, 1), .neutral), ((1, 2), .neutral)]).edges) :=
  C7_edge_weights 3 [((0, 1), .neutral), ((1, 2), .neutral)] (by decide)
